import Mathlib

/-!
Shallow embedding of the cellular-automaton core of `src/cells.rs`
(`terminal_illness`): the grid model, the neighbor-counting transition
function `advance`, the `resize` function, and the double-buffered `Game`
engine, together with theorems settling the specification claims.

Modelling conventions:
* `u8` cell values are `Nat`s; the one place where `u8` arithmetic can
  overflow (`from[y][x] + 1` in the grow branch of `advance`) is modelled
  with an explicit `% 256` (release-build wrapping semantics; a debug build
  panics there, so any divergence of `% 256` from plain `+ 1` marks a point
  where the program misbehaves either way).
* Rust panics (failed `assert_eq!`, out-of-bounds direct index
  `from[y][x]`) are modelled by `Option`: `none` means the function dies.
  Bounds-checked access (`Vec::get`) is already `Option`-valued in the
  source and is modelled directly.
* The `[bool; 9]` rule arrays `grow`/`die` are modelled as total functions
  `Nat → Bool`; the only indices ever used are neighbor counts, which are
  proved to be at most 8 (`neighborCount_le_eight`), where a total function
  agrees exactly with the array.
-/

/-- Source: `pub type Row = Vec<u8>;` -/
abbrev Row : Type := List Nat

/-- Source: `pub type Grid = Vec<Row>;` -/
abbrev Grid : Type := List (List Nat)

/-- The struct `CellOpts` from `cells.rs`: `corners: bool, life: u8, grow: [bool; 9],
die: [bool; 9]`. `life` is a `u8`, so the program only ever builds values
with `life ≤ 255`; `grow`/`die` are the rule arrays as total functions. -/
structure CellOpts where
  corners : Bool
  life : Nat
  grow : Nat → Bool
  die : Nat → Bool

/-- Source: `pub fn get_cell(grid: &Grid, x: usize, y: usize) -> Option<u8>`,
`grid.get(y).map(|r| r.get(x)).flatten().cloned()`. -/
def get_cell (grid : Grid) (x y : Nat) : Option Nat :=
  grid[y]?.bind (fun r => r[x]?)

/-- The candidate neighbor offsets of `(x, y)` built in `advance`: the
`polars` array always, chained with the `corners` array when
`opts.corners` holds. Coordinates are `isize`, modelled as `Int`. -/
def neighborOffsets (corners : Bool) (x y : Int) : List (Int × Int) :=
  [(x, y - 1), (x + 1, y), (x, y + 1), (x - 1, y)]
    ++ (if corners then [(x + 1, y - 1), (x + 1, y + 1), (x - 1, y + 1), (x - 1, y - 1)] else [])

/-- The neighbor count computed in `advance`: keep the offsets with both
coordinates non-negative, look them up in `from` via the bounds-checked
`get_cell` (absent neighbors drop out), and count the non-zero values. -/
def neighborCount (fromG : Grid) (corners : Bool) (x y : Nat) : Nat :=
  (((neighborOffsets corners (x : Int) (y : Int)).filterMap
      (fun p => if 0 ≤ p.1 ∧ 0 ≤ p.2 then get_cell fromG p.1.toNat p.2.toNat else none)).filter
      (fun c => c != 0)).length

/-- The per-cell rule applied by `advance` to the source value `v` given
the live-neighbor count `n`:
`if grow[n] { (v + 1).min(life) } else if die[n] { v.saturating_sub(1) } else { v }`.
`v + 1` is `u8` addition, hence the `% 256` (wraps in release, panics in
debug); `saturating_sub 1` on a `u8` is exactly truncated subtraction. -/
def step (opts : CellOpts) (n v : Nat) : Nat :=
  if opts.grow n then min ((v + 1) % 256) opts.life
  else if opts.die n then v - 1
  else v

/-- One destination cell of `advance`: the direct index `from[y][x]` is a
panic when out of bounds (`none`); otherwise apply `step` at the neighbor
count of `(x, y)`. -/
def nextCell (fromG : Grid) (opts : CellOpts) (x y : Nat) : Option Nat :=
  (get_cell fromG x y).map (fun v => step opts (neighborCount fromG opts.corners x y) v)

/-- The inner loop of `advance`: recompute every cell of one destination
row (row index `y`, first column index `x`); the old destination values
are overwritten without being read. -/
def advanceRow (fromG : Grid) (opts : CellOpts) (y : Nat) : Nat → List Nat → Option (List Nat)
  | _, [] => some []
  | x, _ :: cs =>
    (nextCell fromG opts x y).bind fun v =>
      (advanceRow fromG opts y (x + 1) cs).map fun r => v :: r

/-- The outer loop of `advance` over the destination rows. -/
def advanceRows (fromG : Grid) (opts : CellOpts) : Nat → Grid → Option Grid
  | _, [] => some []
  | y, r :: rs =>
    (advanceRow fromG opts y 0 r).bind fun r' =>
      (advanceRows fromG opts (y + 1) rs).map fun g' => r' :: g'

/-- The three `assert_eq!` entry checks of `advance`: equal row counts,
equal first-row lengths, equal last-row lengths (`Vec::get(0)` is
`head?`, `Vec::last()` is `getLast?`). -/
def dimsOk (fromG toG : Grid) : Prop :=
  List.length fromG = List.length toG
    ∧ (List.head? fromG).map List.length = (List.head? toG).map List.length
    ∧ (List.getLast? fromG).map List.length = (List.getLast? toG).map List.length

instance (fromG toG : Grid) : Decidable (dimsOk fromG toG) := by
  unfold dimsOk; infer_instance

/-- Source: `pub fn advance(from: &Grid, to: &mut Grid, opts: CellOpts)`.
`none` models a panic (a failed assertion, or an out-of-bounds direct
index `from[y][x]` during the scan); `some` returns the overwritten
destination grid. -/
def advance (fromG toG : Grid) (opts : CellOpts) : Option Grid :=
  if dimsOk fromG toG then advanceRows fromG opts 0 toG else none

/-- Per-row half of `resize`: pad the row with dead cells up to width `x`,
or truncate it (from the right) down to width `x`. -/
def resizeRow (row : List Nat) (x : Nat) : List Nat :=
  if row.length < x then row ++ List.replicate (x - row.length) 0
  else if row.length > x then row.take x
  else row

/-- Source: `pub fn resize(grid: &mut Grid, x: usize, y: usize)`. Fix the row
count to `y` (append all-dead rows of width `x`, or drop tail rows), then
fix every row's length to `x`. -/
def resize (grid : Grid) (x y : Nat) : Grid :=
  (if List.length grid < y then grid ++ List.replicate (y - List.length grid) (List.replicate x 0)
   else if List.length grid > y then List.take y grid
   else grid).map (fun r => resizeRow r x)

/-- The grid-level body of `Game::set_cell`:
`grid.get_mut(y).map(|r| r.get_mut(x)).flatten()` and write through the
pointer when it exists, silently do nothing otherwise. -/
def setCells (grid : Grid) (x y v : Nat) : Grid :=
  match grid[y]? with
  | none => grid
  | some r =>
    match r[x]? with
    | none => grid
    | some _ => List.set grid y (List.set r x v)

/-- Source: `pub struct Game`, two buffers, a selector flag, the rule config. -/
structure Game where
  g1 : Grid
  g2 : Grid
  switch : Bool
  opts : CellOpts

/-- Root-level aliases: inside a `Game.…` declaration the bare names
`advance`, `resize`, `get_cell` would resolve to the `Game` namespace
(capturing the declaration itself), so the methods below call the free
functions through these synonyms. -/
def advanceG : Grid → Grid → CellOpts → Option Grid := advance

/-- Alias of `resize`, see `advanceG`. -/
def resizeG : Grid → Nat → Nat → Grid := resize

/-- Alias of `get_cell`, see `advanceG`. -/
def getCellG : Grid → Nat → Nat → Option Nat := get_cell

/-- Method `Game::new`: both buffers empty, selector off. -/
def Game.new (opts : CellOpts) : Game :=
  { g1 := [], g2 := [], switch := false, opts := opts }

/-- Method `Game::grid`: the current (readable) buffer — `g1` when `switch` is
false, `g2` otherwise. -/
def Game.grid (g : Game) : Grid :=
  if !g.switch then g.g1 else g.g2

/-- Method `Game::advance`: run the transition from the current buffer into the
other one, then flip the selector. `none` models a panic of the inner
`advance`. -/
def Game.advance (g : Game) : Option Game :=
  if !g.switch then
    (advanceG g.g1 g.g2 g.opts).map fun g2' => { g with g2 := g2', switch := !g.switch }
  else
    (advanceG g.g2 g.g1 g.opts).map fun g1' => { g with g1 := g1', switch := !g.switch }

/-- Method `Game::resize`: resize both buffers. -/
def Game.resize (g : Game) (x y : Nat) : Game :=
  { g with g1 := resizeG g.g1 x y, g2 := resizeG g.g2 x y }

/-- Method `Game::set_cell`: write into the current buffer (`grid_mut`). -/
def Game.set_cell (g : Game) (x y v : Nat) : Game :=
  if !g.switch then { g with g1 := setCells g.g1 x y v }
  else { g with g2 := setCells g.g2 x y v }

/-- Method `Game::get_cell`: read the current buffer. -/
def Game.get_cell (g : Game) (x y : Nat) : Option Nat :=
  getCellG (Game.grid g) x y

/-- Runs `n` successive `Game::advance` calls, propagating a panic. -/
def gameIter : Nat → Game → Option Game
  | 0, g => some g
  | n + 1, g => (Game.advance g).bind (gameIter n)

/-- A grid with exactly `h` rows, each of length exactly `w`
(rectangularity at fixed dimensions). -/
def rectG (w h : Nat) (g : Grid) : Prop :=
  List.length g = h ∧ ∀ r ∈ g, List.length r = w

instance (w h : Nat) (g : Grid) : Decidable (rectG w h g) := by
  unfold rectG; infer_instance

/-- Every cell of the grid is at most `L`. -/
def boundedG (L : Nat) (g : Grid) : Prop :=
  ∀ r ∈ g, ∀ c ∈ r, c ≤ L

instance (L : Nat) (g : Grid) : Decidable (boundedG L g) := by
  unfold boundedG; infer_instance

example : get_cell [[1, 2], [3, 4]] 1 1 = some 4 := by decide
example : neighborCount [[0, 1], [1, 1]] true 0 0 = 3 := by decide
example : neighborCount [[0, 1], [1, 1]] false 0 0 = 2 := by decide

/-- Rule-array indices are always neighbor counts, and a neighbor count
never exceeds 8 (at most 8 candidate offsets exist), so indexing the
`[bool; 9]` arrays never panics and modelling them as total functions is
exact on every index the program uses. -/
theorem neighborCount_le_eight (fromG : Grid) (corners : Bool) (x y : Nat) :
    neighborCount fromG corners x y ≤ 8 := by
  unfold neighborCount
  calc (((neighborOffsets corners (x : Int) (y : Int)).filterMap
        (fun p => if 0 ≤ p.1 ∧ 0 ≤ p.2 then get_cell fromG p.1.toNat p.2.toNat else none)).filter
        (fun c => c != 0)).length
      ≤ ((neighborOffsets corners (x : Int) (y : Int)).filterMap
        (fun p => if 0 ≤ p.1 ∧ 0 ≤ p.2 then get_cell fromG p.1.toNat p.2.toNat else none)).length :=
        List.length_filter_le _ _
    _ ≤ (neighborOffsets corners (x : Int) (y : Int)).length := List.length_filterMap_le _ _
    _ ≤ 8 := by unfold neighborOffsets; cases corners <;> simp

/-- The classic-Life rule configuration of the spec's concrete scenario:
`life=1`, `corners=true`, `grow={3}`, `die={0,1,4,5,6,7,8}`. -/
def lifeOpts : CellOpts :=
  { corners := true, life := 1, grow := fun n => n == 3,
    die := fun n => n == 0 || n == 1 || n == 4 || n == 5 || n == 6 || n == 7 || n == 8 }

/-- A configuration reaching the grow branch at the maximum cell value:
`life = 255` (a legal CLI value) and growth at every neighbor count. -/
def maxLifeOpts : CellOpts :=
  { corners := false, life := 255, grow := fun _ => true, die := fun _ => false }

/-- C1: the claim says the grow branch always yields `min(from[x,y] + 1, life)`,
saturating and never wrapping, including `from[x,y] = 255` with `life = 255`.
The code computes `(from[y][x] + 1).min(life)` with a plain `u8` addition:
at `from[x,y] = 255` the addition overflows — wrapping to `0` in a release
build (modelled here by the `% 256`), panicking in a debug build — so the
isolated cell of value `255` becomes `0`, while the claimed value is
`min(255 + 1, 255) = 255`. The decay branch uses `saturating_sub` and the
spec demands clamped addition, so the missing `saturating_add` is a slip in
the code. -/
theorem c1_grow_wraps_at_255 :
    advance [[255]] [[0]] maxLifeOpts = some [[0]]
      ∧ min (255 + 1) 255 = 255 :=
  ⟨by decide, by decide⟩

/-- The horizontal blinker phase: row 2, columns 1–3 live, on a 5×5 grid. -/
def horizGrid : Grid :=
  [[0, 0, 0, 0, 0], [0, 0, 0, 0, 0], [0, 1, 1, 1, 0], [0, 0, 0, 0, 0], [0, 0, 0, 0, 0]]

/-- The vertical blinker phase: column 2, rows 1–3 live, on a 5×5 grid. -/
def vertGrid : Grid :=
  [[0, 0, 0, 0, 0], [0, 0, 1, 0, 0], [0, 0, 1, 0, 0], [0, 0, 1, 0, 0], [0, 0, 0, 0, 0]]

/-- The automaton of the scenario: built from `lifeOpts`, resized to 5×5,
with the three blinker cells painted through `Game::set_cell` (the claim
writes positions as `(row, column)`; `set_cell` takes `(x, y) =
(column, row)`). -/
def blinkerGame : Game :=
  ((((Game.new lifeOpts).resize 5 5).set_cell 1 2 1).set_cell 2 2 1).set_cell 3 2 1

/-- C2: with the classic-Life configuration, the horizontal 3-cell blinker
on the 5-row grid becomes the vertical 3-cell line after one `advance`,
and the second `advance` restores the horizontal line (period-2
oscillation). -/
theorem c2_blinker_period_two :
    Game.grid blinkerGame = horizGrid
      ∧ (Game.advance blinkerGame).map Game.grid = some vertGrid
      ∧ ((Game.advance blinkerGame).bind Game.advance).map Game.grid = some horizGrid :=
  ⟨by decide, by decide, by decide⟩

/-- C10: on a freshly constructed automaton (both buffers empty, no resize
yet) `advance` succeeds — all three dimension assertions compare `0 = 0`
or `none = none` — leaves both grids empty and flips the selector: the
empty grid is a fixed point of `advance`. -/
theorem c10_fresh_game_advance (opts : CellOpts) :
    Game.advance (Game.new opts) = some { g1 := [], g2 := [], switch := true, opts := opts } :=
  rfl

/-- C4: the per-cell rule is a first-match policy with grow checked before
die. Whenever `grow[n]` holds — in particular when `die[n]` holds as
well — the result is the grow branch (and coincides with the result under
a rule set whose `die` is all-false, so `die` is never consulted); the die
branch is reached only when `grow[n]` fails; when both fail the source
value is copied unchanged. `step` is the rule `advance` applies at every
cell (see `nextCell`). -/
theorem c4_grow_checked_before_die (opts : CellOpts) (n v : Nat) :
    (opts.grow n = true →
        step opts n v = min ((v + 1) % 256) opts.life
          ∧ step opts n v = step { opts with die := fun _ => false } n v)
      ∧ (opts.grow n = false → opts.die n = true → step opts n v = v - 1)
      ∧ (opts.grow n = false → opts.die n = false → step opts n v = v) := by
  refine ⟨fun hg => ?_, fun hg hd => ?_, fun hg hd => ?_⟩
  · exact ⟨by simp [step, hg], by simp [step, hg]⟩
  · simp [step, hg, hd]
  · simp [step, hg, hd]

/-- A configuration with `grow` and `die` both true at every count, for the
overlap case of C4. -/
def bothOpts : CellOpts :=
  { corners := true, life := 5, grow := fun _ => true, die := fun _ => true }

/-- Witness for C4 at concrete inputs: count 3 with both rules set grows
4 to 5; with the classic-Life rules, count 1 (die only) decays 4 to 3 and
count 2 (neither) copies 4. -/
theorem c4_grow_checked_before_die_witness :
    (step bothOpts 3 4 = min ((4 + 1) % 256) bothOpts.life
        ∧ step bothOpts 3 4 = step { bothOpts with die := fun _ => false } 3 4)
      ∧ step lifeOpts 1 4 = 4 - 1
      ∧ step lifeOpts 2 4 = 4 :=
  ⟨(c4_grow_checked_before_die bothOpts 3 4).1 (by decide),
   (c4_grow_checked_before_die lifeOpts 1 4).2.1 (by decide) (by decide),
   (c4_grow_checked_before_die lifeOpts 2 4).2.2 (by decide) (by decide)⟩

/-- Characterization of `get_cell` in closed form: a value exactly when `y` is within the row
count and `x` within that row's length, `none` otherwise. -/
theorem get_cell_eq (g : Grid) (x y : Nat) :
    get_cell g x y =
      if y < g.length ∧ x < (g.getD y []).length
      then some ((g.getD y []).getD x 0) else none := by
  unfold get_cell
  by_cases hy : y < g.length
  · have hgy : g[y]? = some g[y] := List.getElem?_eq_getElem hy
    have hgd : g.getD y [] = g[y] := by simp [List.getD_eq_getElem?_getD, hgy]
    rw [hgy, hgd]
    by_cases hx : x < g[y].length
    · have hrx : g[y][x]? = some g[y][x] := List.getElem?_eq_getElem hx
      rw [if_pos ⟨hy, hx⟩]
      simp [hrx, List.getD_eq_getElem?_getD]
    · have hrx : g[y][x]? = none := List.getElem?_eq_none (by omega)
      rw [if_neg (by tauto)]
      simp [hrx]
  · have hgy : g[y]? = none := List.getElem?_eq_none (by omega)
    rw [if_neg (by tauto)]
    simp [hgy]

/-- Characterization of `setCells` in closed form: an in-bounds write updates the one row, an
out-of-bounds write returns the grid untouched. -/
theorem setCells_eq (g : Grid) (x y v : Nat) :
    setCells g x y v =
      if y < g.length ∧ x < (g.getD y []).length
      then g.set y ((g.getD y []).set x v) else g := by
  unfold setCells
  by_cases hy : y < g.length
  · have hgy : g[y]? = some g[y] := List.getElem?_eq_getElem hy
    have hgd : g.getD y [] = g[y] := by simp [List.getD_eq_getElem?_getD, hgy]
    by_cases hx : x < g[y].length
    · have hrx : g[y][x]? = some g[y][x] := List.getElem?_eq_getElem hx
      rw [if_pos ⟨hy, by rw [hgd]; exact hx⟩, hgd]
      simp [hgy, hrx]
    · have hrx : g[y][x]? = none := List.getElem?_eq_none (by omega)
      rw [if_neg (by rw [hgd]; tauto)]
      simp [hgy, hrx]
  · have hgy : g[y]? = none := List.getElem?_eq_none (by omega)
    rw [if_neg (by tauto)]
    simp [hgy]

/-- Reading back the coordinate just written: the stored value when the
write was in bounds, `none` (the coordinate does not exist) otherwise. -/
theorem get_setCells_self (g : Grid) (x y v : Nat) :
    get_cell (setCells g x y v) x y =
      if y < g.length ∧ x < (g.getD y []).length then some v else none := by
  rw [setCells_eq]
  by_cases h : y < g.length ∧ x < (g.getD y []).length
  · rw [if_pos h, if_pos h, get_cell_eq]
    have hrow : (g.set y ((g.getD y []).set x v)).getD y [] = (g.getD y []).set x v := by
      simp [List.getD_eq_getElem?_getD, List.getElem?_set_self h.1]
    rw [if_pos ⟨by simpa using h.1, by rw [hrow]; simpa using h.2⟩, hrow]
    have hx2 : x < (g[y]?.getD []).length := by
      simpa [List.getD_eq_getElem?_getD] using h.2
    simp [List.getD_eq_getElem?_getD, List.getElem?_set_self hx2]
  · rw [if_neg h, if_neg h, get_cell_eq, if_neg h]

/-- C5: the access contract. `get_cell` returns `some` of the stored value
exactly when `x` is within the row length and `y` within the row count,
`none` otherwise; the body of `Game::set_cell` writes the value when
`(x, y)` is in bounds and returns the grid completely unchanged — a silent
no-op, not an error — when out of bounds. -/
theorem c5_get_set_contract :
    (∀ (g : Grid) (x y : Nat),
        get_cell g x y =
          if y < g.length ∧ x < (g.getD y []).length
          then some ((g.getD y []).getD x 0) else none)
      ∧ (∀ (g : Grid) (x y v : Nat),
          setCells g x y v =
            if y < g.length ∧ x < (g.getD y []).length
            then g.set y ((g.getD y []).set x v) else g)
      ∧ (∀ (g : Grid) (x y v : Nat),
          get_cell (setCells g x y v) x y =
            if y < g.length ∧ x < (g.getD y []).length then some v else none) :=
  ⟨get_cell_eq, setCells_eq, get_setCells_self⟩

/-- Method `Game::set_cell` edits exactly the current buffer, so reading the
current grid afterwards sees the grid-level write. -/
theorem grid_set_cell (g : Game) (x y v : Nat) :
    Game.grid (Game.set_cell g x y v) = setCells (Game.grid g) x y v := by
  cases g with
  | mk g1 g2 sw opts => cases sw <;> simp [Game.set_cell, Game.grid]

/-- C9: `Game::set_cell` stores the given value verbatim at any in-bounds
coordinate — no comparison against `RuleConfig.life` anywhere on the path —
so a direct edit can place a value above the ceiling that the grow rule
respects. -/
theorem c9_set_cell_stores_verbatim (g : Game) (x y v : Nat)
    (hy : y < (Game.grid g).length) (hx : x < ((Game.grid g).getD y []).length) :
    Game.get_cell (Game.set_cell g x y v) x y = some v := by
  unfold Game.get_cell getCellG
  rw [grid_set_cell, get_setCells_self, if_pos ⟨hy, hx⟩]

/-- Witness for C9: storing `255` in the classic-Life automaton, whose
ceiling is `life = 1`, succeeds verbatim: the stored cell exceeds the
ceiling. -/
theorem c9_set_cell_stores_verbatim_witness :
    Game.get_cell (Game.set_cell blinkerGame 0 0 255) 0 0 = some 255
      ∧ blinkerGame.opts.life = 1 :=
  ⟨c9_set_cell_stores_verbatim blinkerGame 0 0 255 (by decide) (by decide), by decide⟩

/-- The per-row fixup always produces a row of exactly the target width. -/
theorem resizeRow_length (r : List Nat) (x : Nat) : (resizeRow r x).length = x := by
  unfold resizeRow
  by_cases h1 : r.length < x
  · simp [h1]; omega
  · by_cases h2 : r.length > x
    · simp [h1, h2]; omega
    · simp [h1, h2]; omega

/-- A row already at the target width is returned untouched. -/
theorem resizeRow_self (r : List Nat) (x : Nat) (h : r.length = x) : resizeRow r x = r := by
  unfold resizeRow
  rw [if_neg (by omega), if_neg (by omega)]

/-- Fixing up the empty row produces an all-dead row of the target width. -/
theorem resizeRow_nil (x : Nat) : resizeRow [] x = List.replicate x 0 := by
  unfold resizeRow
  by_cases h : 0 < x
  · simp [h]
  · simp [show x = 0 by omega]

/-- Each surviving cell of a fixed-up row: the old value where the row
reached, a dead cell in the padding. -/
theorem resizeRow_getElem? (r : List Nat) (x i : Nat) (hi : i < x) :
    (resizeRow r x)[i]? = some (r.getD i 0) := by
  unfold resizeRow
  by_cases h1 : r.length < x
  · rw [if_pos h1]
    by_cases h2 : i < r.length
    · rw [List.getElem?_append_left h2]
      simp [List.getD_eq_getElem?_getD, List.getElem?_eq_getElem h2]
    · rw [List.getElem?_append_right (by omega), List.getElem?_replicate_of_lt (by omega)]
      simp [List.getD_eq_getElem?_getD, List.getElem?_eq_none (show r.length ≤ i by omega)]
  · by_cases h2 : r.length > x
    · rw [if_neg h1, if_pos h2, List.getElem?_take_of_lt hi]
      have h3 : i < r.length := by omega
      simp [List.getD_eq_getElem?_getD, List.getElem?_eq_getElem h3]
    · rw [if_neg h1, if_neg h2]
      have h3 : i < r.length := by omega
      simp [List.getD_eq_getElem?_getD, List.getElem?_eq_getElem h3]

/-- The function `resize` produces exactly the target row count. -/
theorem resize_length (g : Grid) (x y : Nat) : (resize g x y).length = y := by
  unfold resize
  rw [List.length_map]
  by_cases h1 : g.length < y
  · simp [h1]; omega
  · by_cases h2 : g.length > y
    · simp [h1, h2]; omega
    · simp [h1, h2]; omega

/-- The function `resize` yields a rectangular grid at exactly the target dimensions. -/
theorem resize_rect (g : Grid) (x y : Nat) : rectG x y (resize g x y) := by
  refine ⟨resize_length g x y, fun r hr => ?_⟩
  unfold resize at hr
  obtain ⟨r0, _, rfl⟩ := List.mem_map.mp hr
  exact resizeRow_length r0 x

/-- Each surviving row of a resized grid is the fixed-up old row (the
fixed-up empty row, i.e. all-dead, for appended rows). -/
theorem resize_getElem? (g : Grid) (x y j : Nat) (hj : j < y) :
    (resize g x y)[j]? = some (resizeRow (g.getD j []) x) := by
  unfold resize
  rw [List.getElem?_map]
  by_cases h1 : g.length < y
  · rw [if_pos h1]
    by_cases h2 : j < g.length
    · rw [List.getElem?_append_left h2]
      simp [List.getD_eq_getElem?_getD, List.getElem?_eq_getElem h2]
    · rw [List.getElem?_append_right (by omega), List.getElem?_replicate_of_lt (by omega)]
      have hnil : g.getD j [] = [] := by
        simp [List.getD_eq_getElem?_getD, List.getElem?_eq_none (show g.length ≤ j by omega)]
      rw [hnil, resizeRow_nil, Option.map_some']
      rw [resizeRow_self _ _ (by simp)]
  · by_cases h2 : g.length > y
    · rw [if_neg h1, if_pos h2, List.getElem?_take_of_lt hj]
      have h3 : j < g.length := by omega
      simp [List.getD_eq_getElem?_getD, List.getElem?_eq_getElem h3]
    · rw [if_neg h1, if_neg h2]
      have h3 : j < g.length := by omega
      simp [List.getD_eq_getElem?_getD, List.getElem?_eq_getElem h3]

/-- Cell-level content of a resized grid: inside the target bounds, the
old value where the old grid reached and a dead cell everywhere else. -/
theorem get_cell_resize (g : Grid) (x y a b : Nat) (ha : a < x) (hb : b < y) :
    get_cell (resize g x y) a b = some ((get_cell g a b).getD 0) := by
  unfold get_cell
  rw [resize_getElem? g x y b hb, Option.some_bind, resizeRow_getElem? _ x a ha]
  cases hgb : g[b]? with
  | none => simp [List.getD_eq_getElem?_getD, hgb]
  | some r => simp [List.getD_eq_getElem?_getD, hgb]

/-- C7: the resize contract. The result has exactly `y` rows, each of
length exactly `x`; inside the new bounds every cell equals the old cell
where one existed (content anchored at the top-left: dropped rows come
off the bottom, dropped columns off the right, since surviving positions
keep their own coordinates) and is dead (`0`) at every appended position. -/
theorem c7_resize_contract (g : Grid) (x y : Nat) :
    (resize g x y).length = y
      ∧ (∀ r ∈ resize g x y, r.length = x)
      ∧ ∀ a b : Nat, a < x → b < y →
          get_cell (resize g x y) a b = some ((get_cell g a b).getD 0) :=
  ⟨(resize_rect g x y).1, (resize_rect g x y).2,
   fun a b ha hb => get_cell_resize g x y a b ha hb⟩

/-- Witness for C7 on a concrete 3×2 grid resized to 2×4: the row count
and a kept cell, a padded cell evaluated concretely. -/
theorem c7_resize_contract_witness :
    (resize [[1, 2, 3], [4, 5, 6]] 2 4).length = 4
      ∧ get_cell (resize [[1, 2, 3], [4, 5, 6]] 2 4) 1 1
          = some ((get_cell [[1, 2, 3], [4, 5, 6]] 1 1).getD 0)
      ∧ get_cell (resize [[1, 2, 3], [4, 5, 6]] 2 4) 1 3
          = some ((get_cell [[1, 2, 3], [4, 5, 6]] 1 3).getD 0) :=
  ⟨(c7_resize_contract [[1, 2, 3], [4, 5, 6]] 2 4).1,
   (c7_resize_contract [[1, 2, 3], [4, 5, 6]] 2 4).2.2 1 1 (by decide) (by decide),
   (c7_resize_contract [[1, 2, 3], [4, 5, 6]] 2 4).2.2 1 3 (by decide) (by decide)⟩

/-- If every position of a destination row tail has an in-bounds source
cell, the row scan performs no out-of-bounds direct index. -/
theorem advanceRow_isSome (fromG : Grid) (opts : CellOpts) (y : Nat) :
    ∀ (r : List Nat) (x : Nat),
      (∀ i, i < r.length → (get_cell fromG (x + i) y).isSome = true) →
      (advanceRow fromG opts y x r).isSome = true := by
  intro r
  induction r with
  | nil => intro x _; simp [advanceRow]
  | cons c cs ih =>
    intro x h
    have h0 : (get_cell fromG x y).isSome = true := by simpa using h 0 (by simp)
    obtain ⟨v, hv⟩ := Option.isSome_iff_exists.mp h0
    simp only [advanceRow, nextCell, hv, Option.map_some', Option.some_bind,
      Option.isSome_map']
    exact ih (x + 1) fun i hi => by
      have hx := h (i + 1) (by simpa using Nat.succ_lt_succ hi)
      have : x + (i + 1) = x + 1 + i := by omega
      rwa [this] at hx

/-- If every position of the remaining destination rows has an in-bounds
source cell, the grid scan performs no out-of-bounds direct index. -/
theorem advanceRows_isSome (fromG : Grid) (opts : CellOpts) :
    ∀ (rs : Grid) (y : Nat),
      (∀ j r, rs[j]? = some r → ∀ i, i < r.length →
        (get_cell fromG i (y + j)).isSome = true) →
      (advanceRows fromG opts y rs).isSome = true := by
  intro rs
  induction rs with
  | nil => intro y _; simp [advanceRows]
  | cons r rs ih =>
    intro y h
    have hrow : (advanceRow fromG opts y 0 r).isSome = true := by
      apply advanceRow_isSome
      intro i hi
      have := h 0 r (by simp) i hi
      simpa using this
    obtain ⟨r', hr'⟩ := Option.isSome_iff_exists.mp hrow
    simp only [advanceRows, hr', Option.some_bind, Option.isSome_map']
    exact ih (y + 1) fun j rj hj i hi => by
      have hx := h (j + 1) rj (by simpa using hj) i hi
      have : y + (j + 1) = y + 1 + j := by omega
      rwa [this] at hx

/-- In a rectangular grid both the first and the last row carry the common
width (and are absent exactly when the grid is empty). -/
theorem rect_head_last (w h : Nat) (g : Grid) (hg : rectG w h g) :
    (List.head? g).map List.length = (if h = 0 then none else some w)
      ∧ (List.getLast? g).map List.length = (if h = 0 then none else some w) := by
  obtain ⟨hlen, hrows⟩ := hg
  cases g with
  | nil => simp at hlen; simp [← hlen]
  | cons r rs =>
    have hh : h ≠ 0 := by simp at hlen; omega
    constructor
    · simpa [hh] using hrows r (by simp)
    · rw [List.getLast?_eq_getElem?]
      have hlt : (r :: rs).length - 1 < (r :: rs).length := by simp
      rw [List.getElem?_eq_getElem hlt]
      simpa [hh] using hrows _ (List.getElem?_mem (List.getElem?_eq_getElem hlt))

/-- Two rectangular grids of the same dimensions pass all three entry
assertions of `advance`. -/
theorem dimsOk_of_rect (w h : Nat) (fromG toG : Grid)
    (hf : rectG w h fromG) (ht : rectG w h toG) : dimsOk fromG toG := by
  refine ⟨hf.1.trans ht.1.symm, ?_, ?_⟩
  · rw [(rect_head_last w h fromG hf).1, (rect_head_last w h toG ht).1]
  · rw [(rect_head_last w h fromG hf).2, (rect_head_last w h toG ht).2]

/-- On rectangular buffers that pass the entry assertions, the whole scan
of `advance` stays in bounds: no panic. -/
theorem advance_isSome_of_rect (opts : CellOpts) (w h w' h' : Nat) (fromG toG : Grid)
    (hf : rectG w h fromG) (ht : rectG w' h' toG) (hd : dimsOk fromG toG) :
    (advance fromG toG opts).isSome = true := by
  unfold advance
  rw [if_pos hd]
  apply advanceRows_isSome
  intro j r hj i hi
  obtain ⟨hjlt, hr⟩ := List.getElem?_eq_some_iff.mp hj
  have hrw : r.length = w' := ht.2 r (List.getElem?_mem hj)
  have hjf : j < fromG.length := by rw [hd.1]; exact hjlt
  have hh' : h' ≠ 0 := by
    have := ht.1; omega
  obtain ⟨hd1, hd2, hd3⟩ := hd
  have hww : w = w' := by
    have h1 := (rect_head_last w h fromG hf).1
    have h2 := (rect_head_last w' h' toG ht).1
    have hhh : h = h' := by
      have := hf.1; have := ht.1; have := hd1; omega
    rw [h1, h2, hhh, if_neg hh', if_neg hh'] at hd2
    exact Option.some.inj hd2
  have hrowf : (fromG.getD j []).length = w := by
    have hgd : fromG.getD j [] = fromG[j] := by
      simp [List.getD_eq_getElem?_getD, List.getElem?_eq_getElem hjf]
    rw [hgd]
    exact hf.2 _ (List.getElem?_mem (List.getElem?_eq_getElem hjf))
  rw [Nat.zero_add, get_cell_eq, if_pos ⟨hjf, by rw [hrowf, hww]; omega⟩]
  rfl

/-- C6: the transition precondition. On rectangular buffers, passing the
three entry assertions (equal row counts, equal first-row and last-row
lengths) guarantees the whole scan — every direct `from[y][x]` index — is
in bounds, so `advance` completes without panic; when any of the
three assertion equalities fails, `advance` dies at the assertions
(`none`) instead of recovering. -/
theorem c6_advance_assertions :
    (∀ (opts : CellOpts) (w h w' h' : Nat) (fromG toG : Grid),
        rectG w h fromG → rectG w' h' toG → dimsOk fromG toG →
        (advance fromG toG opts).isSome = true)
      ∧ ∀ (opts : CellOpts) (fromG toG : Grid),
          ¬ dimsOk fromG toG → advance fromG toG opts = none := by
  constructor
  · intro opts w h w' h' fromG toG hf ht hd
    exact advance_isSome_of_rect opts w h w' h' fromG toG hf ht hd
  · intro opts fromG toG hd
    unfold advance
    rw [if_neg hd]

/-- Witness for C6: a matching rectangular pair passes (the scan finishes),
a row-count mismatch dies at the assertions. -/
theorem c6_advance_assertions_witness :
    (advance [[0, 0], [0, 0]] [[1, 2], [3, 4]] lifeOpts).isSome = true
      ∧ advance [[0, 0]] [[0, 0], [0, 0]] lifeOpts = none :=
  ⟨c6_advance_assertions.1 lifeOpts 2 2 2 2 [[0, 0], [0, 0]] [[1, 2], [3, 4]]
      (by decide) (by decide) (by decide),
   c6_advance_assertions.2 lifeOpts [[0, 0]] [[0, 0], [0, 0]] (by decide)⟩

/-- The row scan writes back a row of exactly the destination row's
length: `advance` recomputes cells in place, never reshapes. -/
theorem advanceRow_length (fromG : Grid) (opts : CellOpts) (y : Nat) :
    ∀ (r r' : List Nat) (x : Nat),
      advanceRow fromG opts y x r = some r' → r'.length = r.length := by
  intro r
  induction r with
  | nil =>
    intro r' x h
    simp only [advanceRow, Option.some.injEq] at h
    simp [← h]
  | cons c cs ih =>
    intro r' x h
    simp only [advanceRow, Option.bind_eq_some, Option.map_eq_some'] at h
    obtain ⟨v, _, r'', hrec, rfl⟩ := h
    simpa using ih r'' (x + 1) hrec

/-- The grid scan preserves the destination's row count and every row's
length. -/
theorem advanceRows_rect (fromG : Grid) (opts : CellOpts) (w : Nat) :
    ∀ (rs g' : Grid) (y : Nat), (∀ r ∈ rs, r.length = w) →
      advanceRows fromG opts y rs = some g' →
      g'.length = rs.length ∧ ∀ r' ∈ g', r'.length = w := by
  intro rs
  induction rs with
  | nil =>
    intro g' y _ h
    simp only [advanceRows, Option.some.injEq] at h
    simp [← h]
  | cons r rs ih =>
    intro g' y hw h
    simp only [advanceRows, Option.bind_eq_some, Option.map_eq_some'] at h
    obtain ⟨r', hrow, g'', hrec, rfl⟩ := h
    obtain ⟨hlen, hrows⟩ := ih g'' (y + 1) (fun q hq => hw q (by simp [hq])) hrec
    refine ⟨by simp [hlen], fun q hq => ?_⟩
    rcases List.mem_cons.mp hq with rfl | hq'
    · rw [advanceRow_length fromG opts y r q 0 hrow]
      exact hw r (by simp)
    · exact hrows q hq'

/-- A successful `advance` into a rectangular destination returns a grid
of exactly the destination's dimensions. -/
theorem advance_rect (opts : CellOpts) (w h : Nat) (fromG toG g' : Grid)
    (ht : rectG w h toG) (hadv : advance fromG toG opts = some g') : rectG w h g' := by
  unfold advance at hadv
  split at hadv
  · obtain ⟨hlen, hrows⟩ := advanceRows_rect fromG opts w toG g' 0 ht.2 hadv
    exact ⟨hlen.trans ht.1, hrows⟩
  · cases hadv

/-- A cell obtained by a successful lookup in a bounded grid is bounded. -/
theorem get_cell_le (L : Nat) (g : Grid) (hb : boundedG L g) (x y v : Nat)
    (h : get_cell g x y = some v) : v ≤ L := by
  unfold get_cell at h
  rw [Option.bind_eq_some] at h
  obtain ⟨r, hr, hv⟩ := h
  exact hb r (List.getElem?_mem hr) v (List.getElem?_mem hv)

/-- The per-cell rule never leaves `[0, life]` when the source value is in
`[0, life]`: the grow branch is `min`-clamped at `life`, the die branch is
truncated at `0`, the copy branch is the source value. -/
theorem step_le (opts : CellOpts) (n v : Nat) (hv : v ≤ opts.life) :
    step opts n v ≤ opts.life := by
  unfold step
  split
  · exact min_le_right _ _
  · split
    · omega
    · exact hv

/-- Every cell written by the row scan from a bounded source is bounded. -/
theorem advanceRow_bounded (fromG : Grid) (opts : CellOpts) (y : Nat)
    (hb : boundedG opts.life fromG) :
    ∀ (r r' : List Nat) (x : Nat), advanceRow fromG opts y x r = some r' →
      ∀ c ∈ r', c ≤ opts.life := by
  intro r
  induction r with
  | nil =>
    intro r' x h c hc
    simp only [advanceRow, Option.some.injEq] at h
    rw [← h] at hc
    cases hc
  | cons a cs ih =>
    intro r' x h c hc
    simp only [advanceRow, Option.bind_eq_some, Option.map_eq_some'] at h
    obtain ⟨v, hv, r'', hrec, rfl⟩ := h
    rcases List.mem_cons.mp hc with rfl | hc'
    · unfold nextCell at hv
      rw [Option.map_eq_some'] at hv
      obtain ⟨v0, hv0, rfl⟩ := hv
      exact step_le opts _ v0 (get_cell_le opts.life fromG hb x y v0 hv0)
    · exact ih r'' (x + 1) hrec c hc'

/-- Every cell written by the grid scan from a bounded source is bounded. -/
theorem advanceRows_bounded (fromG : Grid) (opts : CellOpts)
    (hb : boundedG opts.life fromG) :
    ∀ (rs g' : Grid) (y : Nat), advanceRows fromG opts y rs = some g' →
      boundedG opts.life g' := by
  intro rs
  induction rs with
  | nil =>
    intro g' y h
    simp only [advanceRows, Option.some.injEq] at h
    intro r hr
    rw [← h] at hr
    cases hr
  | cons r rs ih =>
    intro g' y h
    simp only [advanceRows, Option.bind_eq_some, Option.map_eq_some'] at h
    obtain ⟨r', hrow, g'', hrec, rfl⟩ := h
    intro q hq
    rcases List.mem_cons.mp hq with rfl | hq'
    · exact advanceRow_bounded fromG opts y hb r q 0 hrow
    · exact ih g'' (y + 1) hrec q hq'

/-- A successful `advance` from a bounded source grid writes only bounded
cells. -/
theorem advance_bounded (opts : CellOpts) (fromG toG g' : Grid)
    (hb : boundedG opts.life fromG) (h : advance fromG toG opts = some g') :
    boundedG opts.life g' := by
  unfold advance at h
  split at h
  · exact advanceRows_bounded fromG opts hb toG g' 0 h
  · cases h

/-- One `Game::advance` on rectangular equal-dimension buffers: it
succeeds, keeps the rule config, keeps both buffers at the same
dimensions, and (when both buffers are bounded by `life`) keeps both
buffers bounded. -/
theorem gameAdvance_step (w h : Nat) (g : Game)
    (h1 : rectG w h g.g1) (h2 : rectG w h g.g2) :
    ∃ g', Game.advance g = some g'
      ∧ g'.opts = g.opts
      ∧ rectG w h g'.g1 ∧ rectG w h g'.g2
      ∧ (boundedG g.opts.life g.g1 → boundedG g.opts.life g.g2 →
          boundedG g.opts.life g'.g1 ∧ boundedG g.opts.life g'.g2) := by
  cases hsw : g.switch
  · have hd := dimsOk_of_rect w h g.g1 g.g2 h1 h2
    have hs := advance_isSome_of_rect g.opts w h w h g.g1 g.g2 h1 h2 hd
    obtain ⟨g2', hg2⟩ := Option.isSome_iff_exists.mp hs
    refine ⟨{ g with g2 := g2', switch := true }, ?_, rfl, h1,
      advance_rect g.opts w h g.g1 g.g2 g2' h2 hg2, ?_⟩
    · simp [Game.advance, advanceG, hsw, hg2]
    · intro hb1 _
      exact ⟨hb1, advance_bounded g.opts g.g1 g.g2 g2' hb1 hg2⟩
  · have hd := dimsOk_of_rect w h g.g2 g.g1 h2 h1
    have hs := advance_isSome_of_rect g.opts w h w h g.g2 g.g1 h2 h1 hd
    obtain ⟨g1', hg1⟩ := Option.isSome_iff_exists.mp hs
    refine ⟨{ g with g1 := g1', switch := false }, ?_, rfl,
      advance_rect g.opts w h g.g2 g.g1 g1' h1 hg1, h2, ?_⟩
    · simp [Game.advance, advanceG, hsw, hg1]
    · intro _ hb2
      exact ⟨advance_bounded g.opts g.g2 g.g1 g1' hb2 hg1, hb2⟩

/-- Any sequence of `Game::advance` calls on rectangular equal-dimension
buffers succeeds and preserves the rule config, both buffers' dimensions,
and (given bounded starting buffers) boundedness of both buffers. -/
theorem gameIter_inv (w h : Nat) :
    ∀ (n : Nat) (g : Game), rectG w h g.g1 → rectG w h g.g2 →
      ∃ g', gameIter n g = some g' ∧ g'.opts = g.opts
        ∧ rectG w h g'.g1 ∧ rectG w h g'.g2
        ∧ (boundedG g.opts.life g.g1 → boundedG g.opts.life g.g2 →
            boundedG g.opts.life g'.g1 ∧ boundedG g.opts.life g'.g2) := by
  intro n
  induction n with
  | zero =>
    intro g h1 h2
    exact ⟨g, rfl, rfl, h1, h2, fun hb1 hb2 => ⟨hb1, hb2⟩⟩
  | succ n ih =>
    intro g h1 h2
    obtain ⟨ga, hadv, hopts, hr1, hr2, hbpres⟩ := gameAdvance_step w h g h1 h2
    obtain ⟨g'', hiter, hopts', hr1', hr2', hbpres'⟩ := ih ga hr1 hr2
    rw [hopts] at hbpres' hopts'
    refine ⟨g'', ?_, hopts', hr1', hr2', ?_⟩
    · simp [gameIter, hadv, hiter]
    · intro hb1 hb2
      obtain ⟨hba, hbb⟩ := hbpres hb1 hb2
      exact hbpres' hba hbb

/-- C8: after `Game::resize(x, y)`, any number of `Game::advance` calls
succeeds and leaves both internal buffers with exactly `y` rows of `x`
cells each — `advance` never changes the dimensions of either buffer. -/
theorem c8_advance_preserves_dims (g : Game) (x y n : Nat) :
    ∃ g', gameIter n (Game.resize g x y) = some g'
      ∧ rectG x y g'.g1 ∧ rectG x y g'.g2 := by
  have h1 : rectG x y (Game.resize g x y).g1 := by
    simpa [Game.resize, resizeG] using resize_rect g.g1 x y
  have h2 : rectG x y (Game.resize g x y).g2 := by
    simpa [Game.resize, resizeG] using resize_rect g.g2 x y
  obtain ⟨g', hiter, _, hr1, hr2, _⟩ := gameIter_inv x y n (Game.resize g x y) h1 h2
  exact ⟨g', hiter, hr1, hr2⟩

/-- C3: starting from any rectangular grid whose cells all lie in
`[0, life]` (loaded into both buffers, as `Game::resize` guarantees), any
number of generations keeps every cell of the current grid in
`[0, life]`. -/
theorem c3_cells_stay_bounded (opts : CellOpts) (w h : Nat) (g : Grid) (n : Nat)
    (hr : rectG w h g) (hb : boundedG opts.life g) :
    ∃ gm, gameIter n { g1 := g, g2 := g, switch := false, opts := opts } = some gm
      ∧ boundedG opts.life (Game.grid gm) := by
  obtain ⟨gm, hiter, _, _, _, hbp⟩ :=
    gameIter_inv w h n { g1 := g, g2 := g, switch := false, opts := opts } hr hr
  obtain ⟨hb1, hb2⟩ := hbp hb hb
  refine ⟨gm, hiter, ?_⟩
  unfold Game.grid
  split
  · exact hb1
  · exact hb2

/-- Witness for C3: the classic-Life blinker grid (cells in `[0, 1]`,
`life = 1`) after three generations still has all cells in `[0, 1]`. -/
theorem c3_cells_stay_bounded_witness :
    ∃ gm, gameIter 3 { g1 := horizGrid, g2 := horizGrid, switch := false, opts := lifeOpts }
        = some gm ∧ boundedG lifeOpts.life (Game.grid gm) :=
  c3_cells_stay_bounded lifeOpts 5 5 horizGrid 3 (by decide) (by decide)

/-- Witness for C5 at concrete inputs: an in-bounds read, an out-of-bounds
silent no-op write, and an in-bounds write read back. -/
theorem c5_get_set_contract_witness :
    get_cell [[7, 8]] 1 0 = some 8
      ∧ setCells [[7, 8]] 0 5 9 = [[7, 8]]
      ∧ get_cell (setCells [[7, 8]] 1 0 9) 1 0 = some 9 :=
  ⟨(c5_get_set_contract.1 [[7, 8]] 1 0).trans (by decide),
   (c5_get_set_contract.2.1 [[7, 8]] 0 5 9).trans (by decide),
   (c5_get_set_contract.2.2 [[7, 8]] 1 0 9).trans (by decide)⟩

/-- Witness for C8 at a concrete automaton: two generations after a resize
to 4×3 keep both buffers at 3 rows of 4 cells. -/
theorem c8_advance_preserves_dims_witness :
    ∃ g', gameIter 2 (Game.resize (Game.new lifeOpts) 4 3) = some g'
      ∧ rectG 4 3 g'.g1 ∧ rectG 4 3 g'.g2 :=
  c8_advance_preserves_dims (Game.new lifeOpts) 4 3 2

/-- Witness for C10 at a concrete rule config. -/
theorem c10_fresh_game_advance_witness :
    Game.advance (Game.new lifeOpts)
      = some { g1 := [], g2 := [], switch := true, opts := lifeOpts } :=
  c10_fresh_game_advance lifeOpts
